import Mathlib

/-!
Shallow embedding of `analyze_setups.py` (openUC2-OptiKit-Store).

The script scans a folder of JSON "setup" documents, extracts metadata,
counts component usage per document, and builds a wide table.  We embed
the JSON data model and each Python function as a Lean definition;
fallible / crashing Python code (TypeError and friends) is modelled with
`Option`, `none` meaning the run raises.
-/

set_option maxHeartbeats 1000000

namespace AnalyzeSetups

/-- A parsed JSON value, as produced by `json.load`.  Numbers are modelled
as integers (the claims touch no fractional values); objects are
association lists in insertion order, keys unique after parsing. -/
inductive JValue where
  | null : JValue
  | bool : Bool → JValue
  | num : Int → JValue
  | str : String → JValue
  | arr : List JValue → JValue
  | obj : List (String × JValue) → JValue

/-- Python `d[k]` / `k in d` on a parsed JSON object: the value at the first
occurrence of key `k` (keys are unique in objects produced by `json.load`). -/
def jGet (kvs : List (String × JValue)) (k : String) : Option JValue :=
  (kvs.find? (fun p => p.1 == k)).map Prod.snd

/-- Python truthiness of a JSON value (`if x:`). -/
def truthy : JValue → Bool
  | .null => false
  | .bool b => b
  | .num n => !(n == 0)
  | .str s => !s.isEmpty
  | .arr xs => !xs.isEmpty
  | .obj kvs => !kvs.isEmpty

/-- Python `len(x)` on a JSON value: defined for sized values
(strings, lists, objects); raises `TypeError` (`none`) otherwise. -/
def jLen : JValue → Option Nat
  | .str s => some s.length
  | .arr xs => some xs.length
  | .obj kvs => some kvs.length
  | _ => none

/-- `os.path.basename` as it behaves on a POSIX host (`posixpath.basename`):
everything after the last `'/'`; a backslash is an ordinary character. -/
def basename (s : String) : String :=
  String.mk ((s.data.reverse.takeWhile (fun c => !(c == '/'))).reverse)

/-- One iteration of the loop body of `count_components_by_file`:
`some (some fn)` means the entry appends basename `fn` to `component_files`,
`some none` means the entry is skipped, `none` means the iteration raises
(`os.path.basename` applied to a truthy non-string value). -/
def entryFile (component : JValue) : Option (Option String) :=
  match component with
  | .obj kvs =>
    match jGet kvs "file" with
    | none => some none
    | some fp =>
      if truthy fp then
        match fp with
        | .str s => some (some (basename s))
        | _ => none
      else some none
  | _ => some none

/-- Run a fallible step over a list, raising (`none`) as soon as one
element does; models a Python `for` loop whose body may raise. -/
def mapOpt (f : α → Option β) : List α → Option (List β)
  | [] => some []
  | a :: l =>
    match f a, mapOpt f l with
    | some b, some bs => some (b :: bs)
    | _, _ => none

/-- Python iteration `for x in v`: lists yield their elements, strings their
one-character substrings, dicts their keys; other values raise `TypeError`. -/
def pyIter : JValue → Option (List JValue)
  | .arr xs => some xs
  | .str s => some (s.data.map (fun c => JValue.str (String.mk [c])))
  | .obj kvs => some (kvs.map (fun p => JValue.str p.1))
  | _ => none

/-- The distinct elements of a list in order of first occurrence
(the key order of a Python `dict` / `Counter` built by insertion). -/
def firstOccs (l : List String) : List String :=
  l.foldl (fun acc s => if s ∈ acc then acc else acc ++ [s]) []

/-- `dict(Counter(l))`: each distinct element of `l`, in first-occurrence
order, paired with its number of occurrences. -/
def counter (l : List String) : List (String × Nat) :=
  (firstOccs l).map (fun s => (s, l.count s))

/-- `count_components_by_file(uc2_components)` from the script: falsy input
yields an empty mapping; otherwise the input is iterated, each entry that is
a mapping with a truthy `file` value contributes the basename of that value,
and the collected names are counted.  `none` models a raised `TypeError`. -/
def count_components_by_file (uc2_components : JValue) : Option (List (String × Nat)) :=
  if truthy uc2_components = false then some []
  else
    match pyIter uc2_components with
    | none => none
    | some entries =>
      match mapOpt entryFile entries with
      | none => none
      | some contribs => some (counter (contribs.filterMap id))

/-- The flat metadata record built by `extract_setup_metadata`.  Field
values come from the document unchanged, so they stay `JValue`s;
`total_components` is overwritten by the scanner with a `len` result. -/
structure SetupMetadata where
  filename : String
  name : JValue
  uc2_verified : JValue
  collection : JValue
  author : JValue
  github_link : JValue
  description : JValue
  category : JValue
  version : JValue
  createdAt : JValue
  total_components : Nat

/-- `extract_setup_metadata(data, filename)`: `data.get(key, default)` for
each fixed field — the document value verbatim when the key is present,
the default otherwise; `total_components` initialised to 0. -/
def extract_setup_metadata (data : List (String × JValue)) (filename : String) : SetupMetadata :=
  { filename := filename
    name := (jGet data "name").getD (.str "")
    uc2_verified := (jGet data "uc2_verified").getD (.bool false)
    collection := (jGet data "collection").getD (.str "")
    author := (jGet data "author").getD (.str "")
    github_link := (jGet data "github_link").getD (.str "")
    description := (jGet data "description").getD (.str "")
    category := (jGet data "category").getD (.str "")
    version := (jGet data "version").getD (.str "")
    createdAt := (jGet data "createdAt").getD (.str "")
    total_components := 0 }

/-- One element of the scanner's result list: the metadata record with the
attached `component_counts` mapping. -/
structure SetupRecord where
  meta : SetupMetadata
  component_counts : List (String × Nat)

/-- The per-file body of `analyze_setups_folder`'s loop after a successful
load: extract metadata, set `total_components = len(data.get('uc2_components', []))`
(raises on an unsized value), count components.  `none` models a raise. -/
def processDoc (filename : String) (data : List (String × JValue)) : Option SetupRecord :=
  let md := extract_setup_metadata data filename
  let uc2 := (jGet data "uc2_components").getD (.arr [])
  match jLen uc2, count_components_by_file uc2 with
  | some n, some counts => some ⟨{ md with total_components := n }, counts⟩
  | _, _ => none

/-- One input file as seen by the scanner: its name, and `some` parsed
document on a successful load or `none` when `load_json_file` logged an
error (the file is then skipped). -/
def scanFile (f : String × Option JValue) : Option (Option SetupRecord) :=
  match f.2 with
  | none => some none
  | some (.obj kvs) => (processDoc f.1 kvs).map some
  | some _ => none

/-- `all_component_files`: the set of keys of every `component_counts`,
realised as a duplicate-free list (set semantics; order irrelevant, the
table builder sorts it). -/
def universeOf (recs : List SetupRecord) : List String :=
  firstOccs (recs.flatMap (fun r => r.component_counts.map Prod.fst))

/-- `analyze_setups_folder`: `none` input models a missing directory
(logged error, empty corpus returned); otherwise every file is processed in
order, skipped files contribute nothing, and a raising file aborts the run
(outer `none`). -/
def analyze_setups_folder (dir : Option (List (String × Option JValue))) :
    Option (List SetupRecord × List String) :=
  match dir with
  | none => some ([], [])
  | some files =>
    (mapOpt scanFile files).map (fun l =>
      let recs := l.filterMap id
      (recs, universeOf recs))

/-- Column-name sanitisation of `create_csv_database`:
`.replace('.', '_').replace(' ', '_').replace('-', '_')`, characterwise. -/
def sanitizeChar (c : Char) : Char :=
  if c = '.' ∨ c = ' ' ∨ c = '-' then '_' else c

/-- The sanitised component identifier. -/
def sanitize (s : String) : String :=
  String.mk (s.data.map sanitizeChar)

/-- `col_name = f"component_{...}"`. -/
def colName (componentFile : String) : String :=
  "component_" ++ sanitize componentFile

/-- The eleven fixed metadata columns, in the order the row dict is built. -/
def metadataCols : List String :=
  ["filename", "name", "uc2_verified", "collection", "author", "github_link",
   "description", "category", "version", "createdAt", "total_components"]

/-- Python dict assignment `row[k] = v`: replace the value at an existing
key in place, else append the pair. -/
def upsert : List (String × JValue) → String → JValue → List (String × JValue)
  | [], k, v => [(k, v)]
  | p :: rest, k, v => if p.1 = k then (k, v) :: rest else p :: upsert rest k v

/-- `component_counts.get(component_file, 0)`. -/
def lookupCount (counts : List (String × Nat)) (k : String) : Nat :=
  ((counts.find? (fun p => p.1 == k)).map Prod.snd).getD 0

/-- The row dict before the component columns are added. -/
def baseRow (r : SetupRecord) : List (String × JValue) :=
  [("filename", JValue.str r.meta.filename),
   ("name", r.meta.name),
   ("uc2_verified", r.meta.uc2_verified),
   ("collection", r.meta.collection),
   ("author", r.meta.author),
   ("github_link", r.meta.github_link),
   ("description", r.meta.description),
   ("category", r.meta.category),
   ("version", r.meta.version),
   ("createdAt", r.meta.createdAt),
   ("total_components", JValue.num r.meta.total_components)]

/-- One output row: the metadata columns followed by
`row[col_name] = component_counts.get(component_file, 0)` for each
component file of the sorted universe. -/
def buildRow (univSorted : List String) (r : SetupRecord) : List (String × JValue) :=
  univSorted.foldl
    (fun row cf => upsert row (colName cf) (JValue.num (lookupCount r.component_counts cf)))
    (baseRow r)

/-- Value of a row at a column. -/
def getCell (row : List (String × JValue)) (c : String) : Option JValue :=
  (row.find? (fun p => p.1 == c)).map Prod.snd

/-- The sort key used by `df.sort_values('filename')`. -/
def rowKey (row : List (String × JValue)) : String :=
  match getCell row "filename" with
  | some (.str s) => s
  | _ => ""

/-- The written table: one association list per row, key order = column
order (pandas takes the dict key order; every row has the same keys). -/
structure Table where
  rows : List (List (String × JValue))

/-- `create_csv_database(setup_data_list, all_component_files)`: empty input
logs an error and writes nothing (`none`); otherwise rows are built against
the sorted component universe and sorted by filename. -/
def create_csv_database (setup_data_list : List SetupRecord)
    (all_component_files : List String) : Option Table :=
  if setup_data_list.isEmpty then none
  else
    let univSorted := List.insertionSort (fun a b : String => a.data ≤ b.data) all_component_files
    let rows := setup_data_list.map (buildRow univSorted)
    some ⟨List.insertionSort (fun a b => (rowKey a).data ≤ (rowKey b).data) rows⟩

/-- `main` from the scanner's return value onward: a `none` result models a
raised exception, `some none` a run that wrote no table, `some (some t)` a
run that wrote table `t`. -/
def run_main (dir : Option (List (String × Option JValue))) : Option (Option Table) :=
  (analyze_setups_folder dir).map (fun r => create_csv_database r.1 r.2)

/-- The whole pipeline on an existing directory containing `files`. -/
def run_pipeline (files : List (String × Option JValue)) : Option (Option Table) :=
  run_main (some files)

/-- Sum of the values of a counts mapping. -/
def sumVals (counts : List (String × Nat)) : Nat :=
  (counts.map Prod.snd).sum

/-- An entry that contributes to the count: a mapping whose `file` key holds
a non-empty string. -/
def usableEntry (e : JValue) : Bool :=
  match e with
  | .obj kvs =>
    match jGet kvs "file" with
    | some (.str s) => !s.isEmpty
    | _ => false
  | _ => false

/-- The value is a JSON string. -/
def isStr : JValue → Bool
  | .str _ => true
  | _ => false

/-- The value is a JSON boolean. -/
def isBool : JValue → Bool
  | .bool _ => true
  | _ => false

/-- The value stored at key `k`, if any, satisfies `good`. -/
def fieldOk (data : List (String × JValue)) (k : String) (good : JValue → Bool) : Bool :=
  match jGet data k with
  | some v => good v
  | none => true

/-- `total_components` as the scanner computes it from the document:
`len(data.get('uc2_components', []))`. -/
def total_components_model (data : List (String × JValue)) : Option Nat :=
  jLen ((jGet data "uc2_components").getD (.arr []))

/-- The column list of the written table (key order of its rows; pandas
reads it off the row dicts, which all agree). -/
def tableHeader (tbl : Table) : List String :=
  (tbl.rows.headD []).map Prod.fst

/-- `col.startswith('component_')`. -/
def startsWithComponent (c : String) : Bool :=
  c.data.take 10 == "component_".data

/-- A numeric cell of a row, as summed by pandas (component columns always
hold numbers). -/
def cellInt (row : List (String × JValue)) (c : String) : Int :=
  match getCell row c with
  | some (.num n) => n
  | _ => 0

/-- `df[component_cols].sum()` for one column. -/
def colTotal (tbl : Table) (c : String) : Int :=
  (tbl.rows.map (fun row => cellInt row c)).sum

/-- The per-column totals over the component columns. -/
def componentTotals (tbl : Table) : List (String × Int) :=
  ((tableHeader tbl).filter startsWithComponent).map (fun c => (c, colTotal tbl c))

/-- `component_totals.sort_values(ascending=False)`. -/
def sortedTotals (tbl : Table) : List (String × Int) :=
  List.insertionSort (fun a b => a.2 ≥ b.2) (componentTotals tbl)

/-- Remove every occurrence of `pat` from `l` (Python `str.replace(pat, '')`),
scanning left to right; the fuel argument is seeded with the list length. -/
def stripAll (pat : List Char) : Nat → List Char → List Char
  | _, [] => []
  | 0, l => l
  | fuel + 1, c :: rest =>
    if pat.isPrefixOf (c :: rest) && !pat.isEmpty then
      stripAll pat fuel ((c :: rest).drop pat.length)
    else c :: stripAll pat fuel rest

/-- `col.replace('component_', '').replace('_', ' ')`: the human-readable
component name printed in the summary. -/
def displayName (col : String) : String :=
  String.mk ((stripAll ("component_".data) col.data.length col.data).map
    (fun c => if c = '_' then ' ' else c))

/-- The first printed line of the "most used components" summary: the
highest-total component column with a positive total, shown with its
display name. -/
def topDisplayed (tbl : Table) : Option (String × Int) :=
  ((((sortedTotals tbl).take 10).filter (fun p => p.2 > 0)).head?).map
    (fun p => (displayName p.1, p.2))

/-- Document A of the two-document scenario: `nema17.stl` twice,
`laser.stl` once. -/
def docA : JValue :=
  .obj [("name", .str "A"),
        ("uc2_components", .arr
          [.obj [("file", .str "nema17.stl")],
           .obj [("file", .str "nema17.stl")],
           .obj [("file", .str "laser.stl")]])]

/-- Document B of the two-document scenario: `nema17.stl` once. -/
def docB : JValue :=
  .obj [("name", .str "B"),
        ("uc2_components", .arr [.obj [("file", .str "nema17.stl")]])]

/-- The two-document corpus of the scenario claim. -/
def scenarioFiles : List (String × Option JValue) :=
  [("a.json", some docA), ("b.json", some docB)]

/-- The table the scenario run writes. -/
def scenarioTable : Table :=
  ((run_pipeline scenarioFiles).getD none).getD ⟨[]⟩

/-- The scanner's record list for the scenario corpus. -/
def scenarioRecs : List SetupRecord :=
  ((analyze_setups_folder (some scenarioFiles)).getD ([], [])).1

/-- The scanner's component universe for the scenario corpus. -/
def scenarioUniverse : List String :=
  ((analyze_setups_folder (some scenarioFiles)).getD ([], [])).2

/-- A one-document corpus whose two component identifiers collide after
sanitisation (`a.stl` and `a-stl` both become `a_stl`). -/
def collisionFiles : List (String × Option JValue) :=
  [("c.json", some (.obj [("uc2_components", .arr
      [.obj [("file", .str "a.stl")],
       .obj [("file", .str "a-stl")]])]))]

/-- The component universe of the collision run. -/
def collisionUniverse : List String :=
  ((analyze_setups_folder (some collisionFiles)).getD ([], [])).2

/-- The table the collision run writes. -/
def collisionTable : Table :=
  ((run_pipeline collisionFiles).getD none).getD ⟨[]⟩

/-! ### Helper lemmas -/

theorem foldl_firstOccs_mem : ∀ (l acc : List String) (x : String),
    (x ∈ l.foldl (fun acc s => if s ∈ acc then acc else acc ++ [s]) acc) ↔ (x ∈ acc ∨ x ∈ l)
  | [], acc, x => by simp
  | s :: t, acc, x => by
    rw [List.foldl_cons, foldl_firstOccs_mem t _ x]
    by_cases hs : s ∈ acc
    · simp only [if_pos hs, List.mem_cons]
      constructor
      · rintro (h | h)
        · exact Or.inl h
        · exact Or.inr (Or.inr h)
      · rintro (h | h | h)
        · exact Or.inl h
        · exact Or.inl (h ▸ hs)
        · exact Or.inr h
    · simp only [if_neg hs, List.mem_append, List.mem_singleton, List.mem_cons]
      tauto

theorem foldl_firstOccs_nodup : ∀ (l acc : List String), acc.Nodup →
    (l.foldl (fun acc s => if s ∈ acc then acc else acc ++ [s]) acc).Nodup
  | [], _, h => h
  | s :: t, acc, h => by
    rw [List.foldl_cons]
    by_cases hs : s ∈ acc
    · rw [if_pos hs]; exact foldl_firstOccs_nodup t acc h
    · rw [if_neg hs]
      refine foldl_firstOccs_nodup t _ ?_
      simp [List.nodup_append, h, hs]

theorem firstOccs_mem (l : List String) (x : String) : x ∈ firstOccs l ↔ x ∈ l := by
  unfold firstOccs
  rw [foldl_firstOccs_mem]
  simp

theorem firstOccs_nodup (l : List String) : (firstOccs l).Nodup :=
  foldl_firstOccs_nodup l [] List.nodup_nil

theorem firstOccs_toFinset (l : List String) : (firstOccs l).toFinset = l.toFinset := by
  ext x
  simp [List.mem_toFinset, firstOccs_mem]

theorem sumVals_counter (l : List String) : sumVals (counter l) = l.length := by
  unfold sumVals counter
  rw [List.map_map]
  have h1 : ((firstOccs l).map (Prod.snd ∘ fun s => (s, l.count s))).sum
      = ((firstOccs l).map (fun s => l.count s)).sum := rfl
  rw [h1, ← List.sum_toFinset _ (firstOccs_nodup l), firstOccs_toFinset,
    List.sum_toFinset_count_eq_length]

theorem counter_mem_pos {l : List String} {p : String × Nat} (hp : p ∈ counter l) :
    0 < p.2 := by
  unfold counter at hp
  obtain ⟨s, hs, he⟩ := List.mem_map.mp hp
  have : s ∈ l := (firstOccs_mem l s).mp hs
  have hc : 0 < l.count s := List.count_pos_iff.mpr this
  rw [← he]
  exact hc

theorem counter_mem_key {l : List String} {k : String} :
    (∃ v, (k, v) ∈ counter l) ↔ k ∈ l := by
  unfold counter
  constructor
  · rintro ⟨v, hv⟩
    obtain ⟨s, hs, he⟩ := List.mem_map.mp hv
    have : s = k := congrArg Prod.fst he
    exact this ▸ (firstOccs_mem l s).mp hs
  · intro hk
    exact ⟨l.count k, List.mem_map.mpr ⟨k, (firstOccs_mem l k).mpr hk, rfl⟩⟩

theorem mapOpt_length {f : α → Option β} : ∀ {l : List α} {r : List β},
    mapOpt f l = some r → r.length = l.length
  | [], r, h => by
    simp only [mapOpt] at h
    cases h
    rfl
  | a :: l, r, h => by
    simp only [mapOpt] at h
    cases hf : f a with
    | none => rw [hf] at h; cases h
    | some b =>
      rw [hf] at h
      cases hm : mapOpt f l with
      | none => rw [hm] at h; cases h
      | some bs =>
        rw [hm] at h
        cases h
        simp [mapOpt_length hm]

theorem mapOpt_mem_iff {f : α → Option β} : ∀ {l : List α} {r : List β},
    mapOpt f l = some r → ∀ b, (b ∈ r ↔ ∃ a ∈ l, f a = some b)
  | [], r, h => by
    simp only [mapOpt] at h
    cases h
    simp
  | a :: l, r, h => by
    simp only [mapOpt] at h
    cases hf : f a with
    | none => rw [hf] at h; cases h
    | some b =>
      rw [hf] at h
      cases hm : mapOpt f l with
      | none => rw [hm] at h; cases h
      | some bs =>
        rw [hm] at h
        cases h
        intro x
        rw [List.mem_cons, mapOpt_mem_iff hm x]
        constructor
        · rintro (h | ⟨a2, ha, he⟩)
          · exact ⟨a, List.mem_cons_self a l, h ▸ hf⟩
          · exact ⟨a2, List.mem_cons_of_mem a ha, he⟩
        · rintro ⟨a2, ha, he⟩
          rcases List.mem_cons.mp ha with h | h
          · left
            rw [h] at he
            rw [hf] at he
            exact (Option.some_inj.mp he).symm
          · right
            exact ⟨a2, h, he⟩

theorem mapOpt_forall_iff {f : α → Option β} {P : β → Prop} {Q : α → Prop}
    (hfq : ∀ a b, f a = some b → (P b ↔ Q a)) : ∀ {l : List α} {r : List β},
    mapOpt f l = some r → ((∀ x ∈ r, P x) ↔ ∀ a ∈ l, Q a)
  | [], r, h => by
    simp only [mapOpt] at h
    cases h
    simp
  | a :: l, r, h => by
    simp only [mapOpt] at h
    cases hf : f a with
    | none => rw [hf] at h; cases h
    | some b =>
      rw [hf] at h
      cases hm : mapOpt f l with
      | none => rw [hm] at h; cases h
      | some bs =>
        rw [hm] at h
        cases h
        simp only [List.mem_cons, forall_eq_or_imp]
        rw [mapOpt_forall_iff hfq hm, hfq a b hf]

theorem length_filterMap_id_le : ∀ (l : List (Option α)), (l.filterMap id).length ≤ l.length
  | [] => Nat.le_refl 0
  | none :: t => by
    simp only [List.filterMap_cons, id]
    exact Nat.le_succ_of_le (length_filterMap_id_le t)
  | some a :: t => by
    simp only [List.filterMap_cons, id, List.length_cons]
    exact Nat.succ_le_succ (length_filterMap_id_le t)

theorem length_filterMap_id_eq_iff : ∀ (l : List (Option α)),
    ((l.filterMap id).length = l.length ↔ ∀ x ∈ l, x.isSome = true)
  | [] => by simp
  | none :: t => by
    simp only [List.filterMap_cons, id, List.length_cons, List.mem_cons]
    constructor
    · intro h
      exact absurd h (Nat.ne_of_lt (Nat.lt_succ_of_le (length_filterMap_id_le t)))
    · intro h
      exact absurd (h none (Or.inl rfl)) (by simp)
  | some a :: t => by
    simp only [List.filterMap_cons, id, List.length_cons, List.mem_cons, forall_eq_or_imp,
      Option.isSome_some, true_and, Nat.succ.injEq]
    exact length_filterMap_id_eq_iff t

theorem entryFile_isSome_iff_usable {e : JValue} {x : Option String}
    (h : entryFile e = some x) : (x.isSome = true ↔ usableEntry e = true) := by
  cases e with
  | obj kvs =>
    cases hj : jGet kvs "file" with
    | none =>
      simp only [entryFile, hj] at h
      cases h
      simp [usableEntry, hj]
    | some fp =>
      cases fp with
      | str s =>
        by_cases hs : s.isEmpty = true
        · simp only [entryFile, hj, truthy, hs] at h
          cases h
          simp [usableEntry, hj, hs]
        · simp only [entryFile, hj, truthy, hs] at h
          simp only [Bool.not_false, if_pos] at h
          cases h
          simp [usableEntry, hj, hs]
      | null =>
        simp only [entryFile, hj, truthy] at h
        cases h
        simp [usableEntry, hj]
      | bool b =>
        cases b with
        | false =>
          simp only [entryFile, hj, truthy] at h
          cases h
          simp [usableEntry, hj]
        | true =>
          simp only [entryFile, hj, truthy] at h
          simp at h
      | num n =>
        by_cases hn : n = 0
        · subst hn
          simp only [entryFile, hj, truthy] at h
          cases h
          simp [usableEntry, hj]
        · simp [entryFile, hj, truthy, hn] at h
      | arr xs =>
        cases xs with
        | nil =>
          simp only [entryFile, hj, truthy] at h
          cases h
          simp [usableEntry, hj]
        | cons a as =>
          simp [entryFile, hj, truthy] at h
      | obj ks =>
        cases ks with
        | nil =>
          simp only [entryFile, hj, truthy] at h
          cases h
          simp [usableEntry, hj]
        | cons a as =>
          simp [entryFile, hj, truthy] at h
  | null =>
    cases h
    simp [usableEntry]
  | bool b =>
    cases h
    simp [usableEntry]
  | num n =>
    cases h
    simp [usableEntry]
  | str s =>
    cases h
    simp [usableEntry]
  | arr xs =>
    cases h
    simp [usableEntry]

/-! ### Claims -/

/-- C2 (code bug): the script comments that `os.path.basename` handles both
Windows and Unix paths, but on a POSIX host it splits only on forward
slashes: `"a/b/c.stl"` reduces to `"c.stl"` while `"a\b\c.stl"` is returned
whole, not reduced to `"c.stl"` as the claim states. -/
theorem C2_basename_posix_backslash :
    basename "a/b/c.stl" = "c.stl" ∧
    basename "a\\b\\c.stl" = "a\\b\\c.stl" ∧
    ("a\\b\\c.stl" : String) ≠ "c.stl" :=
  ⟨by decide, by decide, by decide⟩

/-- C4 (counterexample): a document whose `uc2_components` value is the
string `"abc"` gets `total_components = len("abc") = 3`, not 0 as the
claim states for non-list values. -/
theorem C4_counterexample :
    total_components_model [("uc2_components", JValue.str "abc")] = some 3 ∧
    (some 3 : Option Nat) ≠ some 0 :=
  ⟨by decide, by decide⟩

/-- C4 (amended): `total_components` is `len(data.get('uc2_components', []))`:
the list length when the value is a list, 0 when the key is absent (default
`[]`), but the Python length of any other sized value (string, mapping), and
a raised `TypeError` (modelled `none`) for unsized values. -/
theorem C4_amended_total_components (data : List (String × JValue)) :
    (jGet data "uc2_components" = none → total_components_model data = some 0) ∧
    (∀ xs, jGet data "uc2_components" = some (.arr xs) →
      total_components_model data = some xs.length) ∧
    (∀ s, jGet data "uc2_components" = some (.str s) →
      total_components_model data = some s.length) ∧
    (∀ kvs, jGet data "uc2_components" = some (.obj kvs) →
      total_components_model data = some kvs.length) ∧
    (∀ v, jGet data "uc2_components" = some v → jLen v = none →
      total_components_model data = none) := by
  unfold total_components_model
  refine ⟨fun h => by rw [h]; rfl,
    fun xs h => by rw [h]; rfl,
    fun s h => by rw [h]; rfl,
    fun kvs h => by rw [h]; rfl,
    fun v h hv => by rw [h]; exact hv⟩

/-- C4 (witness): the amended theorem applied to the string-valued document. -/
theorem C4_amended_witness :
    jGet [("uc2_components", JValue.str "abc")] "uc2_components" = some (JValue.str "abc") ∧
    total_components_model [("uc2_components", JValue.str "abc")] = some 3 :=
  ⟨rfl, (C4_amended_total_components _).2.2.1 "abc" rfl⟩

/-- C5 (counterexample): `data.get('name', '')` passes a present `null`
through verbatim, so the document `{"name": null}` yields a null (and
non-string) `name` field, contrary to the claim that every fixed field is
non-null and appropriately typed regardless of the values held. -/
theorem C5_counterexample :
    (extract_setup_metadata [("name", JValue.null)] "f.json").name = JValue.null ∧
    isStr JValue.null = false :=
  ⟨rfl, rfl⟩

theorem fieldOk_getD {data : List (String × JValue)} {k : String}
    {good : JValue → Bool} {d : JValue}
    (h : fieldOk data k good = true) (hd : good d = true) :
    good ((jGet data k).getD d) = true := by
  unfold fieldOk at h
  cases hj : jGet data k with
  | none => exact hd
  | some v => rw [hj] at h; exact h

/-- C5 (amended): every fixed field is populated — `filename` from the
argument, `total_components` 0, and each document field falling back to its
type-appropriate default when absent; but a present value is passed through
verbatim, so the fields are non-null strings / booleans only when every
present value already is one. -/
theorem C5_amended_defaults (data : List (String × JValue)) (filename : String)
    (h1 : fieldOk data "name" isStr = true)
    (h2 : fieldOk data "uc2_verified" isBool = true)
    (h3 : fieldOk data "collection" isStr = true)
    (h4 : fieldOk data "author" isStr = true)
    (h5 : fieldOk data "github_link" isStr = true)
    (h6 : fieldOk data "description" isStr = true)
    (h7 : fieldOk data "category" isStr = true)
    (h8 : fieldOk data "version" isStr = true)
    (h9 : fieldOk data "createdAt" isStr = true) :
    (extract_setup_metadata data filename).filename = filename ∧
    (extract_setup_metadata data filename).total_components = 0 ∧
    isStr (extract_setup_metadata data filename).name = true ∧
    isBool (extract_setup_metadata data filename).uc2_verified = true ∧
    isStr (extract_setup_metadata data filename).collection = true ∧
    isStr (extract_setup_metadata data filename).author = true ∧
    isStr (extract_setup_metadata data filename).github_link = true ∧
    isStr (extract_setup_metadata data filename).description = true ∧
    isStr (extract_setup_metadata data filename).category = true ∧
    isStr (extract_setup_metadata data filename).version = true ∧
    isStr (extract_setup_metadata data filename).createdAt = true :=
  ⟨rfl, rfl, fieldOk_getD h1 rfl, fieldOk_getD h2 rfl, fieldOk_getD h3 rfl,
    fieldOk_getD h4 rfl, fieldOk_getD h5 rfl, fieldOk_getD h6 rfl,
    fieldOk_getD h7 rfl, fieldOk_getD h8 rfl, fieldOk_getD h9 rfl⟩

/-- C5 (witness): the amended theorem applied to the empty document. -/
theorem C5_amended_witness :
    fieldOk [] "name" isStr = true ∧
    fieldOk [] "uc2_verified" isBool = true ∧
    isStr (extract_setup_metadata [] "f.json").name = true ∧
    isBool (extract_setup_metadata [] "f.json").uc2_verified = true ∧
    (extract_setup_metadata [] "f.json").total_components = 0 :=
  ⟨rfl, rfl,
    (C5_amended_defaults [] "f.json" rfl rfl rfl rfl rfl rfl rfl rfl rfl).2.2.1,
    (C5_amended_defaults [] "f.json" rfl rfl rfl rfl rfl rfl rfl rfl rfl).2.2.2.1,
    (C5_amended_defaults [] "f.json" rfl rfl rfl rfl rfl rfl rfl rfl rfl).2.1⟩

/-- C7: an empty setup list makes the table builder log an error and return
without writing (`none`); a missing input directory yields the empty corpus
`([], [])`, and the run then ends with no table written and no exception
(`some none`). -/
theorem C7_empty_corpus_no_write (univ : List String) :
    create_csv_database [] univ = none ∧
    analyze_setups_folder none = some ([], []) ∧
    run_main none = some none :=
  ⟨rfl, rfl, rfl⟩

/-- C1: when the counter returns a mapping for a component list, the sum of
its values is at most the list length (which is exactly the
`total_components` the scanner records for that list), with equality iff
every entry is a mapping holding a non-empty `file` string. -/
theorem C1_count_sum_le_total (entries : List JValue) (counts : List (String × Nat))
    (h : count_components_by_file (.arr entries) = some counts) :
    jLen (.arr entries) = some entries.length ∧
    sumVals counts ≤ entries.length ∧
    (sumVals counts = entries.length ↔ ∀ e ∈ entries, usableEntry e = true) := by
  refine ⟨rfl, ?_⟩
  unfold count_components_by_file at h
  cases entries with
  | nil =>
    simp only [truthy, List.isEmpty_nil] at h
    cases h
    simp [sumVals]
  | cons e t =>
    rw [if_neg (by simp [truthy])] at h
    simp only [pyIter] at h
    cases hm : mapOpt entryFile (e :: t) with
    | none => rw [hm] at h; cases h
    | some contribs =>
      rw [hm] at h
      cases h
      rw [sumVals_counter]
      have hlen : contribs.length = (e :: t).length := mapOpt_length hm
      constructor
      · calc (contribs.filterMap id).length ≤ contribs.length := length_filterMap_id_le _
          _ = (e :: t).length := hlen
      · rw [← hlen, length_filterMap_id_eq_iff]
        exact mapOpt_forall_iff (fun a b hab => entryFile_isSome_iff_usable hab) hm

/-- C1 (witness): a two-entry list with one usable entry: the sum 1 is
strictly below the total 2, and the equality criterion fails on the `null`
entry. -/
theorem C1_witness :
    count_components_by_file
      (.arr [.obj [("file", JValue.str "a.stl")], JValue.null]) = some [("a.stl", 1)] ∧
    sumVals [("a.stl", 1)] ≤ 2 ∧
    (sumVals [("a.stl", 1)] = 2 ↔
      ∀ e ∈ [JValue.obj [("file", JValue.str "a.stl")], JValue.null], usableEntry e = true) :=
  ⟨rfl,
    (C1_count_sum_le_total [.obj [("file", JValue.str "a.stl")], JValue.null]
      [("a.stl", 1)] rfl).2.1,
    (C1_count_sum_le_total [.obj [("file", JValue.str "a.stl")], JValue.null]
      [("a.stl", 1)] rfl).2.2⟩

/-- C9: every value of a produced counts mapping is strictly positive, and
an identifier is a key exactly when some entry of the list contributed it. -/
theorem C9_counts_positive (entries : List JValue) (counts : List (String × Nat))
    (h : count_components_by_file (.arr entries) = some counts) :
    (∀ p ∈ counts, 0 < p.2) ∧
    (∀ k : String, (∃ v, (k, v) ∈ counts) ↔ ∃ e ∈ entries, entryFile e = some (some k)) := by
  unfold count_components_by_file at h
  cases entries with
  | nil =>
    simp only [truthy, List.isEmpty_nil] at h
    cases h
    simp
  | cons e t =>
    rw [if_neg (by simp [truthy])] at h
    simp only [pyIter] at h
    cases hm : mapOpt entryFile (e :: t) with
    | none => rw [hm] at h; cases h
    | some contribs =>
      rw [hm] at h
      cases h
      constructor
      · intro p hp
        exact counter_mem_pos hp
      · intro k
        rw [counter_mem_key, List.mem_filterMap]
        constructor
        · rintro ⟨o, ho, hk⟩
          simp only [id] at hk
          subst hk
          exact (mapOpt_mem_iff hm (some k)).mp ho
        · intro hx
          exact ⟨some k, (mapOpt_mem_iff hm (some k)).mpr hx, rfl⟩

/-- C9 (witness): the theorem applied to a singleton component list. -/
theorem C9_witness :
    count_components_by_file (.arr [.obj [("file", JValue.str "x.stl")]])
      = some [("x.stl", 1)] ∧
    (0 : Nat) < 1 ∧
    ((∃ v, ("x.stl", v) ∈ [("x.stl", 1)]) ↔
      ∃ e ∈ [JValue.obj [("file", JValue.str "x.stl")]], entryFile e = some (some "x.stl")) :=
  ⟨rfl,
    (C9_counts_positive [.obj [("file", JValue.str "x.stl")]] [("x.stl", 1)] rfl).1
      ("x.stl", 1) (List.mem_singleton.mpr rfl),
    (C9_counts_positive [.obj [("file", JValue.str "x.stl")]] [("x.stl", 1)] rfl).2 "x.stl"⟩

/-- C3 (counterexample): the collision run's component universe holds the
two distinct identifiers `a.stl` and `a-stl`, and sanitisation maps both to
the same column name, so it is not injective on identifiers present. -/
theorem C3_counterexample :
    "a.stl" ∈ collisionUniverse ∧ "a-stl" ∈ collisionUniverse ∧
    ("a.stl" : String) ≠ "a-stl" ∧ colName "a.stl" = colName "a-stl" :=
  ⟨by decide, by decide, by decide, by decide⟩

/-- C3 (amended): sanitisation replaces periods, spaces and hyphens with an
underscore; it is injective on identifiers containing none of the replaced
characters, but distinct identifiers that agree after replacement (such as
`a.stl` and `a-stl`) collide. -/
theorem map_sanitizeChar_id : ∀ {l : List Char}, (∀ c ∈ l, sanitizeChar c = c) →
    l.map sanitizeChar = l
  | [], _ => rfl
  | c :: t, h => by
    simp only [List.map_cons]
    rw [h c (List.mem_cons_self c t),
      map_sanitizeChar_id (fun d hd => h d (List.mem_cons_of_mem c hd))]

theorem C3_amended_injective_on_clean (x y : String)
    (hx : ∀ c ∈ x.data, sanitizeChar c = c) (hy : ∀ c ∈ y.data, sanitizeChar c = c)
    (h : colName x = colName y) : x = y := by
  have hd : ("component_".data) ++ x.data.map sanitizeChar
      = ("component_".data) ++ y.data.map sanitizeChar := congrArg String.data h
  have h2 : x.data.map sanitizeChar = y.data.map sanitizeChar :=
    List.append_cancel_left hd
  rw [map_sanitizeChar_id hx, map_sanitizeChar_id hy] at h2
  cases x
  cases y
  exact congrArg String.mk h2

/-- C3 (witness): the amended injectivity applied to a clean identifier. -/
theorem C3_amended_witness :
    (∀ c ∈ ("nema17" : String).data, sanitizeChar c = c) ∧
    colName "nema17" = colName "nema17" ∧ ("nema17" : String) = "nema17" :=
  ⟨by decide, rfl, C3_amended_injective_on_clean "nema17" "nema17"
    (by decide) (by decide) rfl⟩

/-! ### Column-order lemmas (C10) -/

theorem colName_data_take (c : String) :
    ((colName c).data).take 10 = "component_".data := by
  have hd : (colName c).data = "component_".data ++ (sanitize c).data := rfl
  have h10 : ("component_".data).length = 10 := by decide
  rw [hd, ← h10, List.take_left]

theorem colName_ne_meta {c m : String} (hm : m ∈ metadataCols) : colName c ≠ m := by
  intro h
  have h2 := congrArg (fun s => s.data.take 10) h
  simp only at h2
  rw [colName_data_take] at h2
  simp only [metadataCols] at hm
  fin_cases hm <;> exact absurd h2 (by decide)

theorem upsert_keys_not_mem : ∀ (row : List (String × JValue)) (k : String) (v : JValue),
    k ∉ row.map Prod.fst → (upsert row k v).map Prod.fst = row.map Prod.fst ++ [k]
  | [], _, _, _ => rfl
  | p :: rest, k, v, h => by
    have hne : ¬(p.1 = k) := by
      intro he
      exact h (by simp [List.map_cons, he])
    simp only [upsert, if_neg hne, List.map_cons]
    rw [upsert_keys_not_mem rest k v (fun hk => h (by simp [List.map_cons, hk]))]
    rfl

theorem foldl_upsert_keys (g : String → JValue) :
    ∀ (cols : List String) (row : List (String × JValue)),
    (∀ c ∈ cols, colName c ∉ row.map Prod.fst) → ((cols.map colName).Nodup) →
    ((cols.foldl (fun r c => upsert r (colName c) (g c)) row).map Prod.fst)
      = row.map Prod.fst ++ cols.map colName
  | [], row, _, _ => by simp
  | c :: t, row, hd, hnd => by
    rw [List.foldl_cons]
    have hmem : colName c ∉ row.map Prod.fst := hd c (List.mem_cons_self c t)
    have hkeys := upsert_keys_not_mem row (colName c) (g c) hmem
    have hnd2 : ((c :: t).map colName).Nodup := hnd
    rw [List.map_cons, List.nodup_cons] at hnd2
    have ht : ∀ d ∈ t, colName d ∉ (upsert row (colName c) (g c)).map Prod.fst := by
      intro d hdt
      rw [hkeys]
      simp only [List.mem_append, List.mem_singleton]
      rintro (hcase | hcase)
      · exact hd d (List.mem_cons_of_mem c hdt) hcase
      · exact hnd2.1 (hcase ▸ List.mem_map_of_mem colName hdt)
    rw [foldl_upsert_keys g t (upsert row (colName c) (g c)) ht hnd2.2, hkeys]
    simp

theorem buildRow_keys (univSorted : List String) (r : SetupRecord)
    (hnd : (univSorted.map colName).Nodup) :
    (buildRow univSorted r).map Prod.fst = metadataCols ++ univSorted.map colName := by
  unfold buildRow
  have hbase : (baseRow r).map Prod.fst = metadataCols := rfl
  rw [foldl_upsert_keys (fun cf => JValue.num (lookupCount r.component_counts cf))
    univSorted (baseRow r) ?_ hnd, hbase]
  intro c _
  rw [hbase]
  exact fun hm => colName_ne_meta hm rfl

/-- C10 (counterexample): on the collision corpus the universe members
`a-stl` and `a.stl` share the sanitised column `component_a_stl`, so the
written header holds a single component column, not one per universe
member as the claim states. -/
theorem C10_counterexample :
    tableHeader collisionTable = metadataCols ++ ["component_a_stl"] ∧
    (List.insertionSort (fun a b : String => a.data ≤ b.data) collisionUniverse).map colName
      = ["component_a_stl", "component_a_stl"] ∧
    tableHeader collisionTable
      ≠ metadataCols
        ++ (List.insertionSort (fun a b : String => a.data ≤ b.data) collisionUniverse).map colName :=
  ⟨by decide, by decide, by decide⟩

/-- C10 (amended): every row of the written table carries the eleven
metadata columns in their fixed order followed by the component columns of
the sorted universe — exactly one column per member in ascending
lexicographic order of the original identifier, provided no two universe
members collide after sanitisation (colliding members share one column). -/
theorem C10_amended_column_order (recs : List SetupRecord) (univ : List String)
    (tbl : Table)
    (hnd : ((List.insertionSort (fun a b : String => a.data ≤ b.data) univ).map colName).Nodup)
    (h : create_csv_database recs univ = some tbl) :
    ∀ row ∈ tbl.rows,
      row.map Prod.fst
        = metadataCols
          ++ (List.insertionSort (fun a b : String => a.data ≤ b.data) univ).map colName := by
  unfold create_csv_database at h
  cases hrec : recs.isEmpty with
  | true => rw [hrec] at h; simp at h
  | false =>
    rw [hrec] at h
    simp only [Bool.false_eq_true, if_neg] at h
    cases h
    intro row hrow
    have hmem : row ∈ recs.map
        (buildRow (List.insertionSort (fun a b : String => a.data ≤ b.data) univ)) :=
      (List.perm_insertionSort _ _).mem_iff.mp hrow
    obtain ⟨r, _, hr⟩ := List.mem_map.mp hmem
    rw [← hr]
    exact buildRow_keys _ r hnd

/-- C10 (witness): the amended theorem applied to the scenario run, whose
two identifiers do not collide. -/
theorem C10_witness :
    ((List.insertionSort (fun a b : String => a.data ≤ b.data) scenarioUniverse).map colName).Nodup ∧
    (scenarioTable.rows.headD []).map Prod.fst
      = metadataCols
        ++ (List.insertionSort (fun a b : String => a.data ≤ b.data) scenarioUniverse).map colName := by
  refine ⟨by decide, ?_⟩
  have hrows : scenarioTable.rows = scenarioTable.rows.headD [] :: scenarioTable.rows.tail := rfl
  exact C10_amended_column_order scenarioRecs scenarioUniverse scenarioTable (by decide) rfl
    (scenarioTable.rows.headD []) (by rw [hrows]; exact List.mem_cons_self _ _)

/-- C6 (counterexample): in the two-document scenario the printed top
component is the display name `"nema17 stl"` — the period was replaced by
an underscore for the column name and underscores are shown as spaces — not
the identifier `"nema17.stl"` the claim says the summary reports. -/
theorem C6_counterexample :
    topDisplayed scenarioTable = some ("nema17 stl", 3) ∧
    topDisplayed scenarioTable ≠ some ("nema17.stl", 3) :=
  ⟨by decide, by decide⟩

/-! ### Determinism lemmas (C8) -/

theorem sortedPermEq {α : Type _} {r : α → α → Prop} :
    ∀ {l₁ l₂ : List α}, l₁.Perm l₂ → l₁.Sorted r → l₂.Sorted r →
      (∀ a ∈ l₁, ∀ b ∈ l₁, r a b → r b a → a = b) → l₁ = l₂
  | [], _, hp, _, _, _ => hp.nil_eq
  | a :: t₁, l₂, hp, hs₁, hs₂, hanti => by
    cases l₂ with
    | nil => exact absurd hp.eq_nil (by simp)
    | cons b t₂ =>
      by_cases hab : a = b
      · subst hab
        have ht : t₁.Perm t₂ := hp.cons_inv
        have heq := sortedPermEq ht hs₁.of_cons hs₂.of_cons
          (fun x hx y hy hr hr2 =>
            hanti x (List.mem_cons_of_mem a hx) y (List.mem_cons_of_mem a hy) hr hr2)
        rw [heq]
      · have ha2 : a ∈ b :: t₂ := hp.mem_iff.mp (List.mem_cons_self a t₁)
        have hat2 : a ∈ t₂ := by
          rcases List.mem_cons.mp ha2 with h | h
          · exact absurd h hab
          · exact h
        have hba : r b a := (List.sorted_cons.mp hs₂).1 a hat2
        have hb1 : b ∈ a :: t₁ := hp.mem_iff.mpr (List.mem_cons_self b t₂)
        have hbt1 : b ∈ t₁ := by
          rcases List.mem_cons.mp hb1 with h | h
          · exact absurd h.symm hab
          · exact h
        have hab2 : r a b := (List.sorted_cons.mp hs₁).1 b hbt1
        exact absurd (hanti a (List.mem_cons_self a t₁) b hb1 hab2 hba) hab

theorem insertionSortKeyEq {α β : Type _} [LinearOrder β] (key : α → β)
    (l₁ l₂ : List α) (hp : l₁.Perm l₂) (hn : (l₁.map key).Nodup) :
    List.insertionSort (fun a b => key a ≤ key b) l₁
      = List.insertionSort (fun a b => key a ≤ key b) l₂ := by
  haveI htot : IsTotal α (fun a b => key a ≤ key b) := ⟨fun a b => le_total (key a) (key b)⟩
  haveI htr : IsTrans α (fun a b => key a ≤ key b) := ⟨fun _ _ _ h1 h2 => le_trans h1 h2⟩
  have hperm : (List.insertionSort (fun a b => key a ≤ key b) l₁).Perm
      (List.insertionSort (fun a b => key a ≤ key b) l₂) :=
    (List.perm_insertionSort _ l₁).trans (hp.trans (List.perm_insertionSort _ l₂).symm)
  refine sortedPermEq hperm (List.sorted_insertionSort _ l₁) (List.sorted_insertionSort _ l₂)
    (fun a ha b hb hab hba => ?_)
  have hkey : key a = key b := le_antisymm hab hba
  have ha1 : a ∈ l₁ := (List.perm_insertionSort _ l₁).mem_iff.mp ha
  have hb1 : b ∈ l₁ := (List.perm_insertionSort _ l₁).mem_iff.mp hb
  exact List.inj_on_of_nodup_map hn ha1 hb1 hkey

theorem string_data_injective : Function.Injective String.data := fun a b h => by
  cases a
  cases b
  exact congrArg String.mk h

theorem getCell_upsert_ne : ∀ (row : List (String × JValue)) (k c : String) (v : JValue),
    k ≠ c → getCell (upsert row k v) c = getCell row c
  | [], k, c, v, h => by
    have hb : (k == c) = false := by
      simp only [beq_eq_false_iff_ne, ne_eq]
      exact h
    simp [getCell, upsert, List.find?, hb]
  | p :: rest, k, c, v, h => by
    by_cases hp : p.1 = k
    · have hb : (k == c) = false := by
        simp only [beq_eq_false_iff_ne, ne_eq]
        exact h
      have hpb : (p.1 == c) = false := by
        rw [hp]
        exact hb
      simp [getCell, upsert, hp, List.find?, hb, hpb]
    · by_cases hc : p.1 = c
      · have h1 : (p.1 == c) = true := by simp [hc]
        simp [getCell, upsert, hp, List.find?, h1]
      · have h1 : (p.1 == c) = false := by
          simp only [beq_eq_false_iff_ne, ne_eq]
          exact hc
        simp only [upsert, if_neg hp]
        simp only [getCell, List.find?, h1]
        exact getCell_upsert_ne rest k c v h

theorem getCell_foldl_upsert (g : String → JValue) :
    ∀ (cols : List String) (row : List (String × JValue)) (c : String),
    (∀ d ∈ cols, colName d ≠ c) →
    getCell (cols.foldl (fun r d => upsert r (colName d) (g d)) row) c = getCell row c
  | [], _, _, _ => rfl
  | d :: t, row, c, h => by
    rw [List.foldl_cons,
      getCell_foldl_upsert g t _ c (fun e he => h e (List.mem_cons_of_mem d he)),
      getCell_upsert_ne row (colName d) c (g d) (h d (List.mem_cons_self d t))]

theorem rowKey_buildRow (u : List String) (r : SetupRecord) :
    rowKey (buildRow u r) = r.meta.filename := by
  unfold rowKey buildRow
  rw [getCell_foldl_upsert _ u (baseRow r) "filename"
    (fun d _ => colName_ne_meta (by simp [metadataCols]))]
  rfl

theorem processDoc_filename {name : String} {kvs : List (String × JValue)} {r : SetupRecord}
    (h : processDoc name kvs = some r) : r.meta.filename = name := by
  simp only [processDoc] at h
  cases h1 : jLen ((jGet kvs "uc2_components").getD (.arr [])) with
  | none =>
    rw [h1] at h
    simp at h
  | some n =>
    rw [h1] at h
    cases h2 : count_components_by_file ((jGet kvs "uc2_components").getD (.arr [])) with
    | none =>
      rw [h2] at h
      simp at h
    | some counts =>
      rw [h2] at h
      cases h
      rfl

theorem scanFile_getD_filename {f : String × Option JValue} {r : SetupRecord}
    (h : (scanFile f).getD none = some r) : r.meta.filename = f.1 := by
  obtain ⟨name, od⟩ := f
  cases od with
  | none => simp [scanFile] at h
  | some d =>
    cases d with
    | obj kvs =>
      simp only [scanFile] at h
      cases hp : processDoc name kvs with
      | none =>
        rw [hp] at h
        simp at h
      | some r2 =>
        rw [hp] at h
        simp only [Option.map_some', Option.getD_some, Option.some.injEq] at h
        exact h ▸ processDoc_filename hp
    | null => simp [scanFile] at h
    | bool b => simp [scanFile] at h
    | num n => simp [scanFile] at h
    | str s => simp [scanFile] at h
    | arr xs => simp [scanFile] at h

theorem mapOpt_none_of_mem {f : α → Option β} :
    ∀ {l : List α} {a : α}, a ∈ l → f a = none → mapOpt f l = none
  | b :: t, a, hmem, hf => by
    simp only [mapOpt]
    rcases List.mem_cons.mp hmem with h | h
    · subst h
      rw [hf]
    · rw [mapOpt_none_of_mem h hf]
      cases f b <;> rfl

theorem mapOpt_all_isSome {f : α → Option β} (d : β) :
    ∀ {l : List α}, (∀ a ∈ l, (f a).isSome = true) →
      mapOpt f l = some (l.map (fun a => (f a).getD d))
  | [], _ => rfl
  | a :: t, h => by
    simp only [mapOpt, List.map_cons]
    have ha := h a (List.mem_cons_self a t)
    cases hf : f a with
    | none =>
      rw [hf] at ha
      simp at ha
    | some b =>
      rw [mapOpt_all_isSome d (fun x hx => h x (List.mem_cons_of_mem a hx))]
      rfl

theorem analyze_crash {files : List (String × Option JValue)} {f0 : String × Option JValue}
    (hmem : f0 ∈ files) (hf : scanFile f0 = none) :
    analyze_setups_folder (some files) = none := by
  simp only [analyze_setups_folder]
  rw [mapOpt_none_of_mem hmem hf]
  rfl

theorem analyze_all_isSome {files : List (String × Option JValue)}
    (h : ∀ f ∈ files, (scanFile f).isSome = true) :
    analyze_setups_folder (some files)
      = some (files.filterMap (fun f => (scanFile f).getD none),
          universeOf (files.filterMap (fun f => (scanFile f).getD none))) := by
  simp only [analyze_setups_folder]
  rw [mapOpt_all_isSome none h]
  simp only [Option.map_some']
  rw [List.filterMap_map]
  rfl

theorem recs_filenames_sublist : ∀ (files : List (String × Option JValue)),
    ((files.filterMap (fun f => (scanFile f).getD none)).map
      (fun r => r.meta.filename)).Sublist (files.map Prod.fst)
  | [] => List.Sublist.slnil
  | f :: t => by
    rw [List.map_cons, List.filterMap_cons]
    cases hg : (scanFile f).getD none with
    | none => exact (recs_filenames_sublist t).cons f.1
    | some r =>
      rw [List.map_cons, scanFile_getD_filename hg]
      exact (recs_filenames_sublist t).cons₂ f.1

theorem firstOccs_perm {l₁ l₂ : List String} (hp : l₁.Perm l₂) :
    (firstOccs l₁).Perm (firstOccs l₂) :=
  List.perm_of_nodup_nodup_toFinset_eq (firstOccs_nodup l₁) (firstOccs_nodup l₂)
    (by rw [firstOccs_toFinset, firstOccs_toFinset]
        exact List.toFinset_eq_of_perm _ _ hp)

theorem create_eq_of_perm {recs₁ recs₂ : List SetupRecord} {univ₁ univ₂ : List String}
    (hrecs : recs₁.Perm recs₂)
    (hnd : (recs₁.map (fun r => r.meta.filename)).Nodup)
    (hu : List.insertionSort (fun a b : String => a.data ≤ b.data) univ₁
        = List.insertionSort (fun a b : String => a.data ≤ b.data) univ₂) :
    create_csv_database recs₁ univ₁ = create_csv_database recs₂ univ₂ := by
  cases recs₁ with
  | nil =>
    rw [← hrecs.nil_eq]
    rfl
  | cons r t =>
    have hne : recs₂ ≠ [] := by
      intro h
      subst h
      simpa using hrecs.eq_nil
    obtain ⟨r₂, t₂, h2⟩ := List.exists_cons_of_ne_nil hne
    subst h2
    simp only [create_csv_database, List.isEmpty_cons, Bool.false_eq_true, if_false,
      Option.some.injEq, Table.mk.injEq]
    rw [← hu]
    refine insertionSortKeyEq (fun row => (rowKey row).data) _ _ ?_ ?_
    · exact hrecs.map _
    · rw [List.map_map]
      have hcongr : ((r :: t).map
            ((fun row => (rowKey row).data) ∘
              buildRow (List.insertionSort (fun a b : String => a.data ≤ b.data) univ₁)))
          = ((r :: t).map (fun s => s.meta.filename)).map String.data := by
        rw [List.map_map]
        refine List.map_congr_left (fun s _ => ?_)
        simp only [Function.comp]
        rw [rowKey_buildRow]
      rw [hcongr]
      exact hnd.map string_data_injective

/-- C8: the written table is a deterministic function of the input corpus:
permuting the enumeration order of the input files (distinct filenames)
leaves the pipeline result — crash, no-write, or the exact table —
unchanged, and the rows of any written table are sorted by filename
ascending. -/
theorem C8_pipeline_deterministic (files₁ files₂ : List (String × Option JValue))
    (hperm : files₁.Perm files₂) (hnodup : (files₁.map Prod.fst).Nodup) :
    run_pipeline files₁ = run_pipeline files₂ ∧
    (∀ tbl : Table, run_pipeline files₁ = some (some tbl) →
      tbl.rows.Sorted (fun a b => (rowKey a).data ≤ (rowKey b).data)) := by
  constructor
  · by_cases hall : ∀ f ∈ files₁, (scanFile f).isSome = true
    · have hall₂ : ∀ f ∈ files₂, (scanFile f).isSome = true :=
        fun f hf => hall f (hperm.mem_iff.mpr hf)
      simp only [run_pipeline, run_main]
      rw [analyze_all_isSome hall, analyze_all_isSome hall₂]
      simp only [Option.map_some', Option.some.injEq]
      have hrecs : (files₁.filterMap (fun f => (scanFile f).getD none)).Perm
          (files₂.filterMap (fun f => (scanFile f).getD none)) :=
        hperm.filterMap _
      refine create_eq_of_perm hrecs ?_ ?_
      · exact (recs_filenames_sublist files₁).nodup hnodup
      · refine insertionSortKeyEq String.data _ _ ?_ ?_
        · exact firstOccs_perm (hrecs.flatMap_right _)
        · exact (firstOccs_nodup _).map string_data_injective
    · push_neg at hall
      obtain ⟨f0, hf0, hnone⟩ := hall
      have hnone2 : scanFile f0 = none := Option.not_isSome_iff_eq_none.mp hnone
      simp only [run_pipeline, run_main]
      rw [analyze_crash hf0 hnone2, analyze_crash (hperm.mem_iff.mp hf0) hnone2]
  · intro tbl htbl
    simp only [run_pipeline, run_main] at htbl
    cases han : analyze_setups_folder (some files₁) with
    | none =>
      rw [han] at htbl
      cases htbl
    | some pr =>
      rw [han] at htbl
      simp only [Option.map_some', Option.some.injEq] at htbl
      cases hre : pr.1 with
      | nil =>
        rw [hre] at htbl
        simp [create_csv_database] at htbl
      | cons r t =>
        rw [hre] at htbl
        simp only [create_csv_database, List.isEmpty_cons, Bool.false_eq_true, if_false,
          Option.some.injEq] at htbl
        haveI : IsTotal (List (String × JValue))
            (fun a b => (rowKey a).data ≤ (rowKey b).data) := ⟨fun a b => le_total _ _⟩
        haveI : IsTrans (List (String × JValue))
            (fun a b => (rowKey a).data ≤ (rowKey b).data) :=
          ⟨fun _ _ _ h1 h2 => le_trans h1 h2⟩
        rw [← htbl]
        exact List.sorted_insertionSort _ _

/-- C8 (witness): the pipeline applied to a two-file corpus in both
enumeration orders. -/
theorem C8_witness :
    ([(("b.json" : String), some (JValue.obj [])), ("a.json", some (JValue.obj []))].Perm
      [("a.json", some (JValue.obj [])), ("b.json", some (JValue.obj []))]) ∧
    (([(("b.json" : String), some (JValue.obj [])),
        ("a.json", some (JValue.obj []))].map Prod.fst).Nodup) ∧
    run_pipeline [("b.json", some (JValue.obj [])), ("a.json", some (JValue.obj []))]
      = run_pipeline [("a.json", some (JValue.obj [])), ("b.json", some (JValue.obj []))] :=
  ⟨List.Perm.swap _ _ _, by decide,
    (C8_pipeline_deterministic
      [("b.json", some (JValue.obj [])), ("a.json", some (JValue.obj []))]
      [("a.json", some (JValue.obj [])), ("b.json", some (JValue.obj []))]
      (List.Perm.swap _ _ _) (by decide)).1⟩

/-- C6 (amended): the scenario run writes a table with columns for both
identifiers, row `a.json` having `total_components` 3, nema17 column 2 and
laser column 1, row `b.json` having `total_components` 1, nema17 column 1
and laser column 0; the summary reports the top component with usage 3
under its display name `"nema17 stl"` (placeholder underscores reverted to
spaces; the period is not recovered). -/
theorem C6_amended_scenario :
    (run_pipeline scenarioFiles).isSome = true ∧
    ((run_pipeline scenarioFiles).getD none).isSome = true ∧
    tableHeader scenarioTable
      = metadataCols ++ ["component_laser_stl", "component_nema17_stl"] ∧
    rowKey (scenarioTable.rows.headD []) = "a.json" ∧
    getCell (scenarioTable.rows.headD []) "total_components" = some (JValue.num 3) ∧
    getCell (scenarioTable.rows.headD []) "component_nema17_stl" = some (JValue.num 2) ∧
    getCell (scenarioTable.rows.headD []) "component_laser_stl" = some (JValue.num 1) ∧
    rowKey (scenarioTable.rows.getD 1 []) = "b.json" ∧
    getCell (scenarioTable.rows.getD 1 []) "total_components" = some (JValue.num 1) ∧
    getCell (scenarioTable.rows.getD 1 []) "component_nema17_stl" = some (JValue.num 1) ∧
    getCell (scenarioTable.rows.getD 1 []) "component_laser_stl" = some (JValue.num 0) ∧
    topDisplayed scenarioTable = some ("nema17 stl", 3) :=
  ⟨rfl, rfl, by decide, by decide, rfl, rfl, rfl, by decide, rfl, rfl, rfl, by decide⟩

end AnalyzeSetups
